import Mathlib

/-!
# Beacon storage core: shallow embedding

Shallow embedding of `src/js/beacon-storage.js`: the Entry Store CRUD layer,
the Progress/streak state machine (`markDayComplete`), and the legacy-journal
migrator (`migrateFromLegacy` with `parseContextFromLegacyKey`).

Modelling conventions:
* `localStorage` slots become `StoredDoc α`: `absent` (no value under the key),
  `corrupt` (a stored string on which `JSON.parse` throws), or `valid a`
  (a stored string parsing to the modelled value `a`).
* Timestamps are `Nat` milliseconds (`new Date().toISOString()` values compare
  exactly like their underlying instants here; `toDateString` becomes the
  calendar-day number `t / msPerDay`).
* JS numbers that can be `NaN` (the results of `parseInt`) are `Option Int`
  with `none` for `NaN`; `jsEqNum` models `===` on them (`NaN === x` is false).
* Entry ids are `Nat` (the UUID generator is modelled by threading a fresh-id
  counter; claims never depend on the shape of ids, only on their identity).
* JS `String.prototype.split('-')` and `trim()` are reimplemented on the
  character list of the string so that every definition evaluates.
-/

namespace Beacon

/-- JS `s.split(sep)` for a one-character separator, on the character list. -/
def splitOnChar (sep : Char) : List Char → List (List Char)
  | [] => [[]]
  | c :: rest =>
    let r := splitOnChar sep rest
    if c == sep then [] :: r
    else
      match r with
      | [] => [[c]]
      | g :: gs => (c :: g) :: gs

/-- JS `key.split('-')` as used by `parseContextFromLegacyKey`. -/
def jsSplit (sep : Char) (s : String) : List String :=
  (splitOnChar sep s.data).map (fun cs => ⟨cs⟩)

/-- Drop whitespace from both ends of a character list. -/
def trimChars (cs : List Char) : List Char :=
  ((cs.dropWhile Char.isWhitespace).reverse.dropWhile Char.isWhitespace).reverse

/-- JS `s.trim()`. -/
def jsTrim (s : String) : String := ⟨trimChars s.data⟩

/-- Milliseconds per day, the constant `86400000` from the streak logic. -/
def msPerDay : Nat := 86400000

/-- JS `new Date(t).toDateString()` modelled as the calendar-day number of the
instant `t`: two instants get the same result exactly when they fall on the
same day. -/
def toDateString (t : Nat) : Nat := t / msPerDay

/-- Leading-digit run of a character list as a number; `none` when the list
does not start with a digit (the `NaN` case of `parseInt`). -/
def digitsVal (cs : List Char) : Option Nat :=
  let ds := cs.takeWhile Char.isDigit
  if ds.isEmpty then none
  else some (ds.foldl (fun a c => a * 10 + (c.toNat - 48)) 0)

/-- JS `parseInt(s, 10)`: skip leading whitespace, optional sign, read leading
decimal digits, ignore the rest; `none` models `NaN`. -/
def jsParseInt (s : String) : Option Int :=
  let cs := s.data.dropWhile Char.isWhitespace
  match cs with
  | '-' :: rest => (digitsVal rest).map (fun n => -(n : Int))
  | '+' :: rest => (digitsVal rest).map (fun n => (n : Int))
  | _ => (digitsVal cs).map (fun n => (n : Int))

/-- JS `===` on numbers that may be `NaN` (`none`): `NaN === x` is false for
every `x`, including `NaN` itself. -/
def jsEqNum (a b : Option Int) : Bool :=
  match a, b with
  | some x, some y => x == y
  | _, _ => false

/-- Entry `type` field: `'reflection' | 'free'`. -/
inductive EntryType where
  | reflection
  | free
deriving DecidableEq

/-- The `context` object `{ week, day, promptIndex }`; fields are `parseInt`
results, hence possibly `NaN` (`none`). -/
structure Ctx where
  week : Option Int
  day : Option Int
  promptIndex : Option Int
deriving DecidableEq

/-- A journal entry as stored under `beacon_entries`. -/
structure Entry where
  id : Nat
  etype : EntryType
  content : String
  prompt : String
  context : Option Ctx
  createdAt : Nat
  updatedAt : Nat
deriving DecidableEq

/-- `createEntry(type, content, prompt, context)`: fresh id, and
`createdAt = updatedAt = now`. -/
def createEntry (etype : EntryType) (content prompt : String)
    (context : Option Ctx) (id now : Nat) : Entry :=
  { id := id, etype := etype, content := content, prompt := prompt,
    context := context, createdAt := now, updatedAt := now }

/-- The partial-fields argument of `updateEntry(id, updates)`; a `some` field
is present in the `updates` object and overwrites the entry's field in the
spread `{...entry, ...updates, updatedAt: now}`. -/
structure EntryPatch where
  id : Option Nat := none
  etype : Option EntryType := none
  content : Option String := none
  prompt : Option String := none
  context : Option (Option Ctx) := none
  createdAt : Option Nat := none
deriving DecidableEq

/-- The spread `{...entry, ...updates, updatedAt: new Date().toISOString()}`. -/
def applyPatch (e : Entry) (p : EntryPatch) (now : Nat) : Entry :=
  { id := p.id.getD e.id,
    etype := p.etype.getD e.etype,
    content := p.content.getD e.content,
    prompt := p.prompt.getD e.prompt,
    context := p.context.getD e.context,
    createdAt := p.createdAt.getD e.createdAt,
    updatedAt := now }

/-- A value stored in the legacy `beacon_journals` mapping: a raw string, a
structured object (with possibly-absent-or-falsy `content`/`text`/`prompt`/
`createdAt`/`updatedAt` fields), JSON `null`, or any other JSON value (number,
boolean, array) on which property access yields `undefined`. -/
inductive LegacyValue where
  | vstr (s : String)
  | vobj (content text prompt : Option String) (createdAt updatedAt : Option Nat)
  | vnull
  | vother
deriving DecidableEq

/-- A parsed legacy record: the `Object.entries` of the legacy mapping, in
insertion order. -/
def LegacyRecord : Type := List (String × LegacyValue)

instance : DecidableEq LegacyRecord := by
  unfold LegacyRecord
  infer_instance

/-- Progress record stored under `beacon_progress`. `completedDays` keeps the
JS object as an association list from `"week-day"` keys to completion
timestamps. -/
structure Progress where
  currentWeek : Nat
  currentDay : Nat
  completedDays : List (String × Nat)
  streak : Nat
  lastCompletedDate : Option Nat
deriving DecidableEq

/-- The default progress record returned when nothing is stored or the stored
document is corrupt. -/
def defaultProgress : Progress :=
  { currentWeek := 1, currentDay := 1, completedDays := [],
    streak := 0, lastCompletedDate := none }

/-- One `localStorage` slot: no value, an unparseable value, or a parsed one. -/
inductive StoredDoc (α : Type) where
  | absent
  | corrupt
  | valid (val : α)
deriving DecidableEq

/-- The slice of `localStorage` the storage module touches: the entries array,
the progress record, the legacy journals mapping and its archive copy. -/
structure Store where
  entries : StoredDoc (List Entry)
  progress : StoredDoc Progress
  legacy : StoredDoc LegacyRecord
  archived : StoredDoc LegacyRecord
deriving DecidableEq

/-- `getAllEntries()`: parse the entries document, and return `[]` when the
slot is absent or `JSON.parse` throws (caught and logged). -/
def getAllEntries (s : Store) : List Entry :=
  match s.entries with
  | .valid l => l
  | _ => []

/-- `getProgress()`: parse the progress document, returning the default record
when the slot is absent or `JSON.parse` throws (caught and logged). -/
def getProgress (s : Store) : Progress :=
  match s.progress with
  | .valid p => p
  | _ => defaultProgress

/-- The `entry.context && entry.context.week === week && ...` test of
`getEntryByContext`, with `===` on possibly-`NaN` numbers. -/
def matchesContext (week day promptIndex : Int) (e : Entry) : Bool :=
  match e.context with
  | some c =>
    jsEqNum c.week (some week) && jsEqNum c.day (some day) &&
      jsEqNum c.promptIndex (some promptIndex)
  | none => false

/-- `getEntryByContext(week, day, promptIndex)`: first entry whose context
matches all three fields, else null. -/
def getEntryByContext (week day promptIndex : Int) (s : Store) : Option Entry :=
  (getAllEntries s).find? (matchesContext week day promptIndex)

/-- `saveEntry(entry)`: push onto the parsed collection and rewrite it. -/
def saveEntry (e : Entry) (s : Store) : Store :=
  { s with entries := .valid (getAllEntries s ++ [e]) }

/-- The `findIndex` / replace-at-index step of `updateEntry`: replace the
first entry with the given id by its patched version, returning the patched
entry and the rewritten list, or `none` when no entry has the id. -/
def updateFirst (id : Nat) (p : EntryPatch) (now : Nat) :
    List Entry → Option (Entry × List Entry)
  | [] => none
  | e :: rest =>
    if e.id == id then
      some (applyPatch e p now, applyPatch e p now :: rest)
    else
      match updateFirst id p now rest with
      | none => none
      | some (e2, l) => some (e2, e :: l)

/-- `updateEntry(id, updates)`: merge `updates` into the matched entry, stamp
`updatedAt`, rewrite the collection; `(none, s)` when the id is unknown. -/
def updateEntry (id : Nat) (p : EntryPatch) (now : Nat) (s : Store) :
    Option Entry × Store :=
  match updateFirst id p now (getAllEntries s) with
  | none => (none, s)
  | some (e2, l) => (some e2, { s with entries := .valid l })

/-- `deleteEntry(id)`: filter out the id and rewrite; `false` when the
collection length is unchanged (id not found). -/
def deleteEntry (id : Nat) (s : Store) : Bool × Store :=
  let entries := getAllEntries s
  let filtered := entries.filter (fun e => !(e.id == id))
  if filtered.length == entries.length then (false, s)
  else (true, { s with entries := .valid filtered })

/-- The `` `${week}-${day}` `` key of `completedDays`. -/
def dayKey (week day : Nat) : String :=
  toString week ++ "-" ++ toString day

/-- `markDayComplete(week, day)` at clock instant `now`: returns the progress
record the function returns, paired with the store after the conditional
`saveProgress`. -/
def markDayComplete (week day now : Nat) (s : Store) : Progress × Store :=
  let progress := getProgress s
  let key := dayKey week day
  if (progress.completedDays.lookup key).isSome then
    (progress, s)
  else
    let completed := progress.completedDays ++ [(key, now)]
    let today := toDateString now
    let lastDate := progress.lastCompletedDate.map toDateString
    let streak :=
      if lastDate = some today then progress.streak
      else if lastDate = some (toDateString (now - msPerDay)) then
        progress.streak + 1
      else 1
    let cursor :=
      if week = progress.currentWeek ∧ day = progress.currentDay then
        if day < 7 then (progress.currentWeek, day + 1)
        else (week + 1, 1)
      else (progress.currentWeek, progress.currentDay)
    let p2 : Progress :=
      { currentWeek := cursor.1, currentDay := cursor.2,
        completedDays := completed, streak := streak,
        lastCompletedDate := some now }
    (p2, { s with progress := .valid p2 })

/-- `isDayComplete(week, day)`. -/
def isDayComplete (week day : Nat) (s : Store) : Bool :=
  ((getProgress s).completedDays.lookup (dayKey week day)).isSome

/-- `parseContextFromLegacyKey(key)`: split on `'-'`; exactly three parts give
a context whose fields are the `parseInt` of the parts (possibly `NaN`), any
other number of parts gives null. -/
def parseContextFromLegacyKey (key : String) : Option Ctx :=
  let parts := jsSplit '-' key
  if parts.length = 3 then
    some { week := jsParseInt (parts.getD 0 ""),
           day := jsParseInt (parts.getD 1 ""),
           promptIndex := jsParseInt (parts.getD 2 "") }
  else none

/-- `typeof value === 'string' ? value : (value.content || value.text || '')`;
accessing `.content` on `null` throws a `TypeError`, which the migration's
`try`/`catch` turns into an aborted migration. -/
def extractContent : LegacyValue → Except String String
  | .vstr s => .ok s
  | .vobj c t _ _ _ => .ok (c.getD (t.getD ""))
  | .vnull => .error "Cannot read properties of null"
  | .vother => .ok ""

/-- `typeof value === 'object' ? (value.prompt || '') : ''`. -/
def extractPrompt : LegacyValue → String
  | .vobj _ _ p _ _ => p.getD ""
  | _ => ""

/-- `if (typeof value === 'object' && value.createdAt)` — overwrite the fresh
entry's timestamps with the legacy object's own. -/
def applyLegacyTimestamps (e : Entry) : LegacyValue → Entry
  | .vobj _ _ _ (some c) u =>
    { e with createdAt := c, updatedAt := u.getD c }
  | _ => e

/-- The body of the migration loop for one `[key, value]` pair: `some entry`
when the pair migrates, `none` when its trimmed content is empty (dropped),
an error when evaluating it throws. -/
def convertPair (id now : Nat) (key : String) (value : LegacyValue) :
    Except String (Option Entry) :=
  let context := parseContextFromLegacyKey key
  let isReflection := context.isSome
  match extractContent value with
  | .error e => .error e
  | .ok content =>
    let prompt := extractPrompt value
    if jsTrim content ≠ "" then
      let e := createEntry (if isReflection then .reflection else .free)
        content prompt context id now
      .ok (some (applyLegacyTimestamps e value))
    else
      .ok none

/-- The `for (const [key, value] of Object.entries(parsed))` loop, threading
the fresh-id counter and stopping at the first thrown error. -/
def migrateLoop (id now : Nat) : List (String × LegacyValue) →
    Except String (List Entry)
  | [] => .ok []
  | (k, v) :: rest =>
    match convertPair id now k v with
    | .error e => .error e
    | .ok none => migrateLoop id now rest
    | .ok (some entry) =>
      match migrateLoop (id + 1) now rest with
      | .error e => .error e
      | .ok l => .ok (entry :: l)

/-- The `{ migrated, count, error? }` result of `migrateFromLegacy()`. -/
structure MigrateResult where
  migrated : Bool
  count : Nat
  error : Option String
deriving DecidableEq

/-- The message of the `SyntaxError` thrown by `JSON.parse` on a corrupt
legacy document. -/
def jsonParseError : String := "Unexpected token in JSON"

/-- `migrateFromLegacy()` at clock instant `now` with fresh-id counter `id`:
no legacy key short-circuits; a parse failure or a throw inside the loop is
caught before any write; otherwise, when at least one entry migrated, merge
into the existing collection, archive the raw legacy document and remove the
legacy key. -/
def migrateFromLegacy (id now : Nat) (s : Store) : MigrateResult × Store :=
  match s.legacy with
  | .absent =>
    ({ migrated := false, count := 0, error := none }, s)
  | .corrupt =>
    ({ migrated := false, count := 0, error := some jsonParseError }, s)
  | .valid record =>
    match migrateLoop id now record with
    | .error e =>
      ({ migrated := false, count := 0, error := some e }, s)
    | .ok newEntries =>
      if newEntries.length > 0 then
        let existing := getAllEntries s
        let merged := existing ++ newEntries
        ({ migrated := true, count := newEntries.length, error := none },
         { s with entries := .valid merged,
                  archived := .valid record,
                  legacy := .absent })
      else
        ({ migrated := true, count := 0, error := none }, s)

/-- Whether a legacy pair's value survives migration: its content extraction
does not throw and the trimmed content is non-empty. -/
def keepsValue (v : LegacyValue) : Bool :=
  match extractContent v with
  | .ok c => jsTrim c ≠ ""
  | .error _ => false

/-- Two context fields carry the same concrete triple (JS `===` semantics on
the components, so `NaN` components never coincide). -/
def sameCtx : Option Ctx → Option Ctx → Bool
  | some c1, some c2 =>
    jsEqNum c1.week c2.week && jsEqNum c1.day c2.day &&
      jsEqNum c1.promptIndex c2.promptIndex
  | _, _ => false

/-- Two entries carry the same concrete context triple. -/
def sameTriple (a b : Entry) : Bool :=
  sameCtx a.context b.context

/-- No two context fields of the list coincide on a concrete triple. -/
def uniqueCtxs : List (Option Ctx) → Bool
  | [] => true
  | c :: rest => rest.all (fun c2 => !(sameCtx c c2)) && uniqueCtxs rest

/-- The uniqueness invariant of the spec: no two entries of the collection
carry the same concrete context triple. -/
def uniqueByContext (l : List Entry) : Bool :=
  uniqueCtxs (l.map (fun e => e.context))

/-- An `updates` object whose only field is `content`, as in
`updateEntry(id, { content })`. -/
def contentOnly (x : String) : EntryPatch :=
  { content := some x }

/-- A concrete store for exercising the migration on a record that contains a
`null` value alongside a valid reflection pair. -/
def storeWithNullLegacy : Store :=
  { entries := .valid [createEntry .free "kept" "" none 0 10],
    progress := .absent,
    legacy := .valid [("1-2-0", .vstr "hello"), ("note", .vnull)],
    archived := .absent }

/-- A concrete store with an absent entries slot and a corrupt progress slot. -/
def emptyishStore : Store :=
  { entries := .absent, progress := .corrupt,
    legacy := .absent, archived := .absent }

/-- A concrete store whose progress already records day `(1, 1)`. -/
def storeWithDayDone : Store :=
  { entries := .absent,
    progress := .valid
      { currentWeek := 1, currentDay := 2, completedDays := [("1-1", 5)],
        streak := 1, lastCompletedDate := some 5 },
    legacy := .absent, archived := .absent }

/-- A concrete store holding a corrupt legacy document. -/
def storeWithCorruptLegacy : Store :=
  { entries := .valid [], progress := .absent,
    legacy := .corrupt, archived := .absent }

/-- A concrete store whose legacy record parses but contains only a
blank-content pair, so the migration drops every pair. -/
def storeBlankLegacy : Store :=
  { entries := .absent, progress := .absent,
    legacy := .valid [("1-1-0", .vstr "   ")], archived := .absent }

/-- A concrete store whose legacy record has one migratable reflection pair. -/
def storeGoodLegacy : Store :=
  { entries := .valid [createEntry .free "pre" "" none 0 1],
    progress := .absent,
    legacy := .valid [("1-2-0", .vstr "hello")], archived := .absent }

/-- A concrete store whose legacy record has one pair keyed by three
non-numeric dash-separated components. -/
def storeAlphaKey : Store :=
  { entries := .valid [], progress := .absent,
    legacy := .valid [("a-b-c", .vstr "hello")], archived := .absent }

/-- The entry the migration produces for `{"a-b-c": "hello"}`: typed
`reflection` with an all-`NaN` context. -/
def nanContextEntry : Entry :=
  { id := 0, etype := .reflection, content := "hello", prompt := "",
    context := some { week := none, day := none, promptIndex := none },
    createdAt := 0, updatedAt := 0 }

/-- The entry the migration produces for `{"1-2-0": "hello"}` with fresh id 0
at instant 0. -/
def migratedHelloEntry : Entry :=
  { id := 0, etype := .reflection, content := "hello", prompt := "",
    context := some { week := some 1, day := some 2, promptIndex := some 0 },
    createdAt := 0, updatedAt := 0 }

/-- The context object built from three concrete (non-`NaN`) components. -/
def concreteCtx (w d p : Int) : Ctx :=
  { week := some w, day := some d, promptIndex := some p }

/-- The reflection context `(1, 1, 0)`. -/
def reflCtx110 : Ctx :=
  { week := some 1, day := some 1, promptIndex := some 0 }

/-- A reflection entry for context `(1, 1, 0)` with id 1. -/
def dupEntryA : Entry :=
  { id := 1, etype := .reflection, content := "a", prompt := "",
    context := some reflCtx110, createdAt := 0, updatedAt := 0 }

/-- A second reflection entry for the same context `(1, 1, 0)`, id 2. -/
def dupEntryB : Entry :=
  { id := 2, etype := .reflection, content := "b", prompt := "",
    context := some reflCtx110, createdAt := 0, updatedAt := 0 }

/-- A store with an empty entry collection. -/
def emptyStore : Store :=
  { entries := .valid [], progress := .absent,
    legacy := .absent, archived := .absent }

/-- A store holding one free entry and one reflection entry. -/
def storeTwoEntries : Store :=
  { entries := .valid [createEntry .free "f" "" none 9 0, dupEntryA],
    progress := .absent, legacy := .absent, archived := .absent }

/-- A concrete store holding a single free entry with id 5. -/
def storeOneEntry : Store :=
  { entries := .valid [createEntry .free "old" "p" none 5 10],
    progress := .absent, legacy := .absent, archived := .absent }

/-- A concrete store whose cursor sits at `(1, 7)`, the end of week 1. -/
def storeAtWeekEnd : Store :=
  { entries := .absent,
    progress := .valid
      { currentWeek := 1, currentDay := 7, completedDays := [],
        streak := 0, lastCompletedDate := none },
    legacy := .absent, archived := .absent }

/-- Looking a key up in an appended association list skips a prefix in which
the key does not occur. -/
theorem lookup_append_of_notin {α β : Type} [BEq α] (k : α)
    (l1 l2 : List (α × β)) (h : List.lookup k l1 = none) :
    List.lookup k (l1 ++ l2) = List.lookup k l2 := by
  induction l1 with
  | nil => simp
  | cons a t ih =>
    rw [List.cons_append]
    cases a with
    | mk a1 a2 =>
      cases hk : (k == a1) with
      | true => simp [List.lookup, hk] at h
      | false =>
        simp only [List.lookup, hk] at h ⊢
        exact ih h

/-- C9: when the underlying store slot is absent or its stored document is
corrupt, `getAllEntries` returns the empty collection and `getProgress`
returns the default progress record `{currentWeek: 1, currentDay: 1,
completedDays: {}, streak: 0, lastCompletedDate: null}`; neither raises. -/
theorem c9_absence_is_not_failure (s : Store) :
    ((s.entries = .absent ∨ s.entries = .corrupt) → getAllEntries s = [])
    ∧ ((s.progress = .absent ∨ s.progress = .corrupt) →
        getProgress s =
          { currentWeek := 1, currentDay := 1, completedDays := [],
            streak := 0, lastCompletedDate := none }) := by
  constructor
  · rintro (h | h) <;> simp [getAllEntries, h]
  · rintro (h | h) <;> simp [getProgress, h, defaultProgress]

/-- Witness for C9 at a store with an absent entries slot and a corrupt
progress slot. -/
theorem c9_absence_is_not_failure_witness :
    getAllEntries emptyishStore = []
    ∧ getProgress emptyishStore =
        { currentWeek := 1, currentDay := 1, completedDays := [],
          streak := 0, lastCompletedDate := none } :=
  ⟨(c9_absence_is_not_failure _).1 (Or.inl rfl),
   (c9_absence_is_not_failure _).2 (Or.inr rfl)⟩

/-- C8: when `(week, day)` is already present in `completedDays`,
`markDayComplete` returns the current progress record unchanged and writes
nothing to the store, so `completedDays`, `streak`, `lastCompletedDate` and
the cursor all stay exactly as they were — the operation is idempotent. -/
theorem c8_markDayComplete_noop (s : Store) (week day now : Nat)
    (h : ((getProgress s).completedDays.lookup (dayKey week day)).isSome) :
    markDayComplete week day now s = (getProgress s, s) := by
  unfold markDayComplete
  simp [h]

/-- Witness for C8 at a store whose progress already records day `(1, 1)`. -/
theorem c8_markDayComplete_noop_witness :
    markDayComplete 1 1 999999 storeWithDayDone =
      (getProgress storeWithDayDone, storeWithDayDone) :=
  c8_markDayComplete_noop _ 1 1 999999 (by decide)

/-- C5: when the stored legacy document fails to parse, `migrateFromLegacy`
returns `{migrated: false, count: 0, error}` and the whole store — the entry
collection, the legacy key and the archive key — is exactly as before. -/
theorem c5_parse_failure_leaves_state (s : Store) (id now : Nat)
    (h : s.legacy = .corrupt) :
    migrateFromLegacy id now s =
      ({ migrated := false, count := 0, error := some jsonParseError }, s) := by
  unfold migrateFromLegacy
  rw [h]

/-- Witness for C5 at a store holding a corrupt legacy document. -/
theorem c5_parse_failure_leaves_state_witness :
    migrateFromLegacy 0 0 storeWithCorruptLegacy =
      ({ migrated := false, count := 0, error := some jsonParseError },
       storeWithCorruptLegacy) :=
  c5_parse_failure_leaves_state _ 0 0 rfl

/-- A concrete store whose progress has streak 3 with the last completion one
calendar day before instant `2 * msPerDay + 7`. -/
def storeStreak : Store :=
  { entries := .absent,
    progress := .valid
      { currentWeek := 1, currentDay := 2, completedDays := [("1-1", 86400005)],
        streak := 3, lastCompletedDate := some 86400005 },
    legacy := .absent, archived := .absent }

/-- C3: for a not-yet-completed `(week, day)`, `markDayComplete` updates the
streak by comparing calendar dates, not timestamps: unchanged when the last
completion falls on today's calendar day, incremented by one when it falls on
yesterday's calendar day, and reset to 1 otherwise (a gap of two or more
days, a future date, or no prior completion). -/
theorem c3_streak_calendar_rule (s : Store) (week day now : Nat)
    (hday : msPerDay ≤ now)
    (hnew : (getProgress s).completedDays.lookup (dayKey week day) = none) :
    (markDayComplete week day now s).1.streak =
      match (getProgress s).lastCompletedDate with
      | none => 1
      | some last =>
        if last / msPerDay = now / msPerDay then (getProgress s).streak
        else if last / msPerDay + 1 = now / msPerDay then
          (getProgress s).streak + 1
        else 1 := by
  have hpos : 0 < msPerDay := by norm_num [msPerDay]
  have hsub : (now - msPerDay) / msPerDay = now / msPerDay - 1 := by
    have h1 := Nat.div_eq_sub_div hpos hday
    rw [h1]
    simp
  have hq1 : 1 ≤ now / msPerDay := (Nat.one_le_div_iff hpos).2 hday
  simp only [markDayComplete, hnew, Option.isSome_none, Bool.false_eq_true,
    if_false]
  cases hlast : (getProgress s).lastCompletedDate with
  | none => simp [toDateString]
  | some last =>
    simp only [Option.map_some', toDateString, Option.some.injEq, hsub]
    obtain ⟨L, hL⟩ : ∃ L, last / msPerDay = L := ⟨_, rfl⟩
    obtain ⟨N, hN⟩ : ∃ N, now / msPerDay = N := ⟨_, rfl⟩
    rw [hN] at hq1
    rw [hL, hN]
    have hiff : (L = N - 1) ↔ (L + 1 = N) := by omega
    simp only [hiff]

/-- Witness for C3: completing day `(1, 2)` one calendar day after the last
completion increments the streak from 3 to 4. -/
theorem c3_streak_calendar_rule_witness :
    (markDayComplete 1 2 (2 * msPerDay + 7) storeStreak).1.streak =
      match (getProgress storeStreak).lastCompletedDate with
      | none => 1
      | some last =>
        if last / msPerDay = (2 * msPerDay + 7) / msPerDay then
          (getProgress storeStreak).streak
        else if last / msPerDay + 1 = (2 * msPerDay + 7) / msPerDay then
          (getProgress storeStreak).streak + 1
        else 1 :=
  c3_streak_calendar_rule storeStreak 1 2 (2 * msPerDay + 7) (by decide)
    (by decide)

/-- C4: for a not-yet-completed `(week, day)`, `markDayComplete` advances the
cursor only when `(week, day)` equals the current `(currentWeek, currentDay)`
— to `(currentWeek, currentDay + 1)` when `currentDay < 7` and to
`(currentWeek + 1, 1)` otherwise — while completing any other `(week, day)`
records the completion but leaves the cursor unchanged. -/
theorem c4_cursor_advance (s : Store) (week day now : Nat)
    (hnew : (getProgress s).completedDays.lookup (dayKey week day) = none) :
    ((week = (getProgress s).currentWeek ∧ day = (getProgress s).currentDay) →
      ((markDayComplete week day now s).1.currentWeek,
        (markDayComplete week day now s).1.currentDay) =
        (if (getProgress s).currentDay < 7 then
          ((getProgress s).currentWeek, (getProgress s).currentDay + 1)
        else ((getProgress s).currentWeek + 1, 1)))
    ∧ (¬(week = (getProgress s).currentWeek ∧ day = (getProgress s).currentDay) →
      (markDayComplete week day now s).1.currentWeek =
        (getProgress s).currentWeek
      ∧ (markDayComplete week day now s).1.currentDay =
        (getProgress s).currentDay
      ∧ (markDayComplete week day now s).1.completedDays.lookup
          (dayKey week day) = some now) := by
  simp only [markDayComplete, hnew, Option.isSome_none, Bool.false_eq_true,
    if_false]
  constructor
  · rintro ⟨hw, hd⟩
    rw [if_pos ⟨hw, hd⟩, ← hw, ← hd]
  · intro hc
    rw [if_neg hc]
    refine ⟨rfl, rfl, ?_⟩
    rw [lookup_append_of_notin _ _ _ hnew]
    simp [List.lookup]

/-- Witness for C4: with the cursor at `(1, 7)`, completing `(1, 7)` wraps the
cursor to week 2 day 1 (the `currentDay < 7` test fails). -/
theorem c4_cursor_advance_witness :
    ((markDayComplete 1 7 5 storeAtWeekEnd).1.currentWeek,
      (markDayComplete 1 7 5 storeAtWeekEnd).1.currentDay) =
      (if (getProgress storeAtWeekEnd).currentDay < 7 then
        ((getProgress storeAtWeekEnd).currentWeek,
          (getProgress storeAtWeekEnd).currentDay + 1)
      else ((getProgress storeAtWeekEnd).currentWeek + 1, 1)) :=
  (c4_cursor_advance storeAtWeekEnd 1 7 5 (by decide)).1 (by decide)

/-- When no entry of the list carries the id, the replace-first-match step
finds nothing. -/
theorem updateFirst_eq_none (id : Nat) (p : EntryPatch) (now : Nat)
    (l : List Entry) (h : ∀ e ∈ l, e.id ≠ id) :
    updateFirst id p now l = none := by
  induction l with
  | nil => rfl
  | cons a t ih =>
    have ha : (a.id == id) = false := by
      simp only [beq_eq_false_iff_ne]
      exact h a (List.mem_cons_self a t)
    simp only [updateFirst, ha, Bool.false_eq_true, if_false]
    rw [ih (fun e he => h e (List.mem_cons_of_mem a he))]

/-- A successful replace-first-match step patched some entry of the list that
carries the id. -/
theorem updateFirst_eq_some (id : Nat) (p : EntryPatch) (now : Nat)
    (l : List Entry) (e2 : Entry) (l2 : List Entry)
    (h : updateFirst id p now l = some (e2, l2)) :
    ∃ e ∈ l, e.id = id ∧ e2 = applyPatch e p now := by
  induction l generalizing e2 l2 with
  | nil => simp [updateFirst] at h
  | cons a t ih =>
    cases ha : (a.id == id) with
    | true =>
      simp only [updateFirst, ha, if_true, Option.some.injEq,
        Prod.mk.injEq] at h
      exact ⟨a, List.mem_cons_self a t, by simpa using ha, h.1.symm⟩
    | false =>
      simp only [updateFirst, ha, Bool.false_eq_true, if_false] at h
      cases hrest : updateFirst id p now t with
      | none => rw [hrest] at h; simp at h
      | some pr =>
        rw [hrest] at h
        cases pr with
        | mk e3 l3 =>
          simp only [Option.some.injEq, Prod.mk.injEq] at h
          obtain ⟨e, he, hid, heq⟩ := ih e3 l3 hrest
          refine ⟨e, List.mem_cons_of_mem a he, hid, ?_⟩
          rw [← h.1]
          exact heq

/-- C7: `updateEntry(id, {content: x})` on a store whose clock has not gone
backwards merges the new content, stamps `updatedAt = now ≥ createdAt`, and
preserves the matched entry's `id`, `type`, `context` and `createdAt`; on an
id no entry carries it returns null and leaves the store unchanged, raising
no error. -/
theorem c7_updateEntry_merge (s : Store) (id : Nat) (x : String) (now : Nat)
    (hclock : ∀ e ∈ getAllEntries s, e.createdAt ≤ now) :
    ((∀ e ∈ getAllEntries s, e.id ≠ id) →
      updateEntry id (contentOnly x) now s = (none, s))
    ∧ (∀ e2, (updateEntry id (contentOnly x) now s).1 = some e2 →
        e2.content = x ∧ e2.updatedAt = now ∧ e2.createdAt ≤ e2.updatedAt ∧
        ∃ e ∈ getAllEntries s, e.id = id ∧ e2.id = e.id ∧ e2.etype = e.etype ∧
          e2.context = e.context ∧ e2.createdAt = e.createdAt) := by
  constructor
  · intro h
    unfold updateEntry
    rw [updateFirst_eq_none id (contentOnly x) now (getAllEntries s) h]
  · intro e2 h
    unfold updateEntry at h
    cases hfind : updateFirst id (contentOnly x) now (getAllEntries s) with
    | none => rw [hfind] at h; simp at h
    | some pr =>
      rw [hfind] at h
      cases pr with
      | mk e3 l3 =>
        simp only [Option.some.injEq] at h
        obtain ⟨e, he, hid, heq⟩ :=
          updateFirst_eq_some id (contentOnly x) now (getAllEntries s) e3 l3
            hfind
        subst h
        subst heq
        refine ⟨rfl, rfl, ?_, e, he, hid, rfl, rfl, rfl, rfl⟩
        exact hclock e he

/-- Witness for C7: updating an unknown id on a one-entry store is a no-op
returning null. -/
theorem c7_updateEntry_merge_witness :
    updateEntry 99 (contentOnly "x") 20 storeOneEntry = (none, storeOneEntry) :=
  (c7_updateEntry_merge storeOneEntry 99 "x" 20 (by decide)).1 (by decide)

/-- C1, counterexample: a parseable legacy record whose every pair has blank
content is *not* archived and *not* removed — the first call returns
`{migrated: true, count: 0}` and leaves the store (legacy key included)
unchanged, and an immediately following second call again returns
`{migrated: true, count: 0}` rather than `{migrated: false, count: 0}`. -/
theorem c1_counterexample_blank_record :
    (migrateFromLegacy 0 0 storeBlankLegacy).1 =
      { migrated := true, count := 0, error := none }
    ∧ (migrateFromLegacy 0 0 storeBlankLegacy).2 = storeBlankLegacy
    ∧ (migrateFromLegacy 1 1 (migrateFromLegacy 0 0 storeBlankLegacy).2).1 =
      { migrated := true, count := 0, error := none } := by
  decide

/-- C1, amended: for every parseable legacy record from which at least one
entry actually migrates (`count > 0`), `migrateFromLegacy` archives the raw
legacy record under the archive key, removes the original legacy key, and an
immediately following second call returns `{migrated: false, count: 0}` and
changes nothing — in particular it adds no duplicate entries. (When every
pair is dropped the legacy key stays and the call reports
`{migrated: true, count: 0}`.) -/
theorem c1_migration_idempotent (s : Store) (id1 now1 id2 now2 : Nat)
    (record : LegacyRecord) (hleg : s.legacy = .valid record)
    (hcount : 0 < (migrateFromLegacy id1 now1 s).1.count) :
    (migrateFromLegacy id1 now1 s).2.legacy = .absent
    ∧ (migrateFromLegacy id1 now1 s).2.archived = .valid record
    ∧ migrateFromLegacy id2 now2 (migrateFromLegacy id1 now1 s).2 =
        ({ migrated := false, count := 0, error := none },
         (migrateFromLegacy id1 now1 s).2) := by
  cases hloop : migrateLoop id1 now1 record with
  | error e =>
    simp only [migrateFromLegacy, hleg, hloop] at hcount
    exact absurd hcount (by norm_num)
  | ok newEntries =>
    by_cases hlen : newEntries.length > 0
    · simp only [migrateFromLegacy, hleg, hloop, if_pos hlen]
      exact ⟨trivial, trivial, trivial⟩
    · simp only [migrateFromLegacy, hleg, hloop, if_neg hlen] at hcount
      exact absurd hcount (by norm_num)

/-- Witness for the amended C1 on a record with one migratable pair: the
legacy key is removed, the raw record archived, and the second call is the
steady-state no-op. -/
theorem c1_migration_idempotent_witness :
    (migrateFromLegacy 3 50 storeGoodLegacy).2.legacy = StoredDoc.absent
    ∧ (migrateFromLegacy 3 50 storeGoodLegacy).2.archived =
        StoredDoc.valid [("1-2-0", LegacyValue.vstr "hello")]
    ∧ migrateFromLegacy 4 60 (migrateFromLegacy 3 50 storeGoodLegacy).2 =
        ({ migrated := false, count := 0, error := none },
         (migrateFromLegacy 3 50 storeGoodLegacy).2) :=
  c1_migration_idempotent storeGoodLegacy 3 50 4 60
    [("1-2-0", LegacyValue.vstr "hello")] rfl (by decide)

/-- A legacy key parses to a context exactly when splitting it on `'-'` gives
three parts — numeric or not. -/
theorem parseContext_isSome_iff (key : String) :
    (parseContextFromLegacyKey key).isSome ↔ (jsSplit '-' key).length = 3 := by
  unfold parseContextFromLegacyKey
  by_cases h : (jsSplit '-' key).length = 3 <;> simp [h]

/-- Overwriting an entry's timestamps from a legacy object value changes
neither its type, its context, nor its content. -/
theorem applyLegacyTimestamps_fields (e : Entry) (v : LegacyValue) :
    (applyLegacyTimestamps e v).etype = e.etype
    ∧ (applyLegacyTimestamps e v).context = e.context
    ∧ (applyLegacyTimestamps e v).content = e.content := by
  cases v with
  | vobj c t p cr u => cases cr <;> exact ⟨rfl, rfl, rfl⟩
  | vstr s => exact ⟨rfl, rfl, rfl⟩
  | vnull => exact ⟨rfl, rfl, rfl⟩
  | vother => exact ⟨rfl, rfl, rfl⟩

/-- A pair that migrates to an entry has a kept value; a dropped pair has a
non-kept value. -/
theorem keepsValue_of_convertPair (id now : Nat) (k : String)
    (v : LegacyValue) :
    (∀ e, convertPair id now k v = .ok (some e) → keepsValue v = true)
    ∧ (convertPair id now k v = .ok none → keepsValue v = false) := by
  cases hec : extractContent v with
  | error msg =>
    constructor
    · intro e h
      simp [convertPair, hec] at h
    · intro h
      simp [convertPair, hec] at h
  | ok c =>
    by_cases hb : jsTrim c = ""
    · constructor
      · intro e h
        simp [convertPair, hec, hb] at h
      · intro _
        simp [keepsValue, hec, hb]
    · constructor
      · intro e _
        simp [keepsValue, hec, hb]
      · intro h
        simp [convertPair, hec, hb] at h

/-- A successful migration loop produces exactly one entry per pair whose
value is kept (content extraction succeeds and trims non-empty). -/
theorem migrateLoop_length (pairs : List (String × LegacyValue)) :
    ∀ id now out, migrateLoop id now pairs = .ok out →
      out.length = (pairs.filter (fun kv => keepsValue kv.2)).length := by
  induction pairs with
  | nil =>
    intro id now out h
    simp only [migrateLoop, Except.ok.injEq] at h
    simp [← h]
  | cons kv rest ih =>
    intro id now out h
    cases kv with
    | mk k v =>
      cases hc : convertPair id now k v with
      | error e =>
        simp only [migrateLoop, hc] at h
        simp at h
      | ok o =>
        cases o with
        | none =>
          simp only [migrateLoop, hc] at h
          have hkeep := (keepsValue_of_convertPair id now k v).2 hc
          simp only [List.filter_cons, hkeep, Bool.false_eq_true, if_false]
          exact ih id now out h
        | some entry =>
          simp only [migrateLoop, hc] at h
          cases hrest : migrateLoop (id + 1) now rest with
          | error e => rw [hrest] at h; simp at h
          | ok l =>
            rw [hrest] at h
            simp only [Except.ok.injEq] at h
            have hkeep := (keepsValue_of_convertPair id now k v).1 entry hc
            simp only [List.filter_cons, hkeep, if_true]
            rw [← h]
            simp only [List.length_cons]
            rw [ih (id + 1) now l hrest]

/-- C2, counterexample: the key `"a-b-c"` has three dash-separated components
none of which is numeric, yet migrating `{"a-b-c": "hello"}` produces a
`reflection` entry with a non-null context (its components are the `NaN`
results of `parseInt`), not a `free` entry with null context as the claim
requires. -/
theorem c2_counterexample_alpha_key :
    getAllEntries (migrateFromLegacy 0 0 storeAlphaKey).2 = [nanContextEntry]
    ∧ nanContextEntry.etype = EntryType.reflection
    ∧ nanContextEntry.context ≠ none := by
  decide

/-- C2, amended: migration classifies a pair as a reflection exactly when its
key splits on `'-'` into exactly three components — whether or not they are
numeric; the context holds the `parseInt` of the components, which is `NaN`
for a non-numeric one — and otherwise as free with null context; every pair
whose extracted content is empty after trimming is dropped and excluded from
the count, and every other pair contributes exactly one migrated entry. -/
theorem c2_classification_and_count (id now : Nat) (key : String)
    (value : LegacyValue) :
    (∀ c, extractContent value = .ok c → jsTrim c = "" →
        convertPair id now key value = .ok none)
    ∧ (∀ c, extractContent value = .ok c → jsTrim c ≠ "" →
        ∃ e, convertPair id now key value = .ok (some e)
          ∧ e.content = c
          ∧ e.context = parseContextFromLegacyKey key
          ∧ (e.etype = .reflection ↔ (jsSplit '-' key).length = 3)
          ∧ (e.etype = .free ↔ (jsSplit '-' key).length ≠ 3))
    ∧ (∀ pairs out, migrateLoop id now pairs = .ok out →
        out.length = (pairs.filter (fun kv => keepsValue kv.2)).length) := by
  refine ⟨?_, ?_, fun pairs out h => migrateLoop_length pairs id now out h⟩
  · intro c hc hb
    simp [convertPair, hc, hb]
  · intro c hc hb
    refine ⟨applyLegacyTimestamps
      (createEntry (if (parseContextFromLegacyKey key).isSome then .reflection
        else .free) c (extractPrompt value) (parseContextFromLegacyKey key)
        id now) value, ?_, ?_, ?_, ?_, ?_⟩
    · simp [convertPair, hc, hb]
    · exact (applyLegacyTimestamps_fields _ _).2.2
    · exact (applyLegacyTimestamps_fields _ _).2.1
    · rw [(applyLegacyTimestamps_fields _ _).1]
      by_cases hk : (parseContextFromLegacyKey key).isSome
      · have hlen : (jsSplit '-' key).length = 3 :=
          (parseContext_isSome_iff key).1 hk
        simp [hk, createEntry, hlen]
      · have hlen : ¬(jsSplit '-' key).length = 3 :=
          fun hl => hk ((parseContext_isSome_iff key).2 hl)
        simp [hk, createEntry, hlen]
    · rw [(applyLegacyTimestamps_fields _ _).1]
      by_cases hk : (parseContextFromLegacyKey key).isSome
      · have hlen : (jsSplit '-' key).length = 3 :=
          (parseContext_isSome_iff key).1 hk
        simp [hk, createEntry, hlen]
      · have hlen : ¬(jsSplit '-' key).length = 3 :=
          fun hl => hk ((parseContext_isSome_iff key).2 hl)
        simp [hk, createEntry, hlen]

/-- Witness for the amended C2: a blank-content pair is dropped, and a
two-pair record with one kept pair migrates exactly one entry. -/
theorem c2_classification_and_count_witness :
    convertPair 0 0 "note" (LegacyValue.vstr "   ") = .ok none
    ∧ ([migratedHelloEntry] : List Entry).length =
        (([("1-2-0", LegacyValue.vstr "hello"),
           ("x", LegacyValue.vstr " ")]).filter
          (fun kv => keepsValue kv.2)).length :=
  ⟨(c2_classification_and_count 0 0 "note" (LegacyValue.vstr "   ")).1
      "   " rfl (by decide),
   (c2_classification_and_count 0 0 "irrelevant" LegacyValue.vother).2.2
      [("1-2-0", LegacyValue.vstr "hello"), ("x", LegacyValue.vstr " ")]
      [migratedHelloEntry] rfl⟩

/-- `===` on possibly-`NaN` numbers holds exactly when both sides are the
same non-`NaN` number. -/
theorem jsEqNum_true_iff (x y : Option Int) :
    jsEqNum x y = true ↔ ∃ v, x = some v ∧ y = some v := by
  cases x with
  | none => simp [jsEqNum]
  | some a =>
    cases y with
    | none => simp [jsEqNum]
    | some b =>
      simp only [jsEqNum, beq_iff_eq, Option.some.injEq]
      constructor
      · intro h
        subst h
        exact ⟨a, rfl, rfl⟩
      · rintro ⟨v, h1, h2⟩
        rw [h1, h2]

/-- First component of a concrete context. -/
theorem concreteCtx_week (w d p : Int) : (concreteCtx w d p).week = some w :=
  rfl

/-- Second component of a concrete context. -/
theorem concreteCtx_day (w d p : Int) : (concreteCtx w d p).day = some d :=
  rfl

/-- Third component of a concrete context. -/
theorem concreteCtx_promptIdx (w d p : Int) :
    (concreteCtx w d p).promptIndex = some p :=
  rfl

/-- The context-match test of `getEntryByContext` is the triple comparison
against a context made of the three concrete components. -/
theorem matchesContext_eq_sameCtx (w d p : Int) (e : Entry) :
    matchesContext w d p e = sameCtx e.context (some (concreteCtx w d p)) := by
  cases h : e.context with
  | none => simp [matchesContext, sameCtx, h]
  | some c => simp [matchesContext, sameCtx, h, concreteCtx]

/-- Two context fields coincide on a concrete triple exactly when some
concrete `(w, d, p)` matches both. -/
theorem sameCtx_iff_matches (a b : Option Ctx) :
    sameCtx a b = true ↔
      ∃ w d p : Int,
        sameCtx a (some (concreteCtx w d p)) = true
        ∧ sameCtx b (some (concreteCtx w d p)) = true := by
  cases a with
  | none => simp [sameCtx]
  | some ca =>
    cases b with
    | none =>
      simp only [sameCtx, Bool.and_eq_true]
      constructor
      · intro h
        simp at h
      · rintro ⟨w, d, p, _, h⟩
        exact h
    | some cb =>
      simp only [sameCtx, concreteCtx_week, concreteCtx_day,
        concreteCtx_promptIdx, Bool.and_eq_true, jsEqNum_true_iff,
        Option.some.injEq]
      constructor
      · rintro ⟨⟨⟨w, hw1, hw2⟩, ⟨d, hd1, hd2⟩⟩, ⟨p, hp1, hp2⟩⟩
        exact ⟨w, d, p,
          ⟨⟨⟨w, hw1, rfl⟩, ⟨d, hd1, rfl⟩⟩, ⟨p, hp1, rfl⟩⟩,
          ⟨⟨⟨w, hw2, rfl⟩, ⟨d, hd2, rfl⟩⟩, ⟨p, hp2, rfl⟩⟩⟩
      · rintro ⟨w, d, p,
          ⟨⟨⟨w1, hw1, hw1e⟩, ⟨d1, hd1, hd1e⟩⟩, ⟨p1, hp1, hp1e⟩⟩,
          ⟨⟨⟨w2, hw2, hw2e⟩, ⟨d2, hd2, hd2e⟩⟩, ⟨p2, hp2, hp2e⟩⟩⟩
        cases hw1e
        cases hd1e
        cases hp1e
        cases hw2e
        cases hd2e
        cases hp2e
        exact ⟨⟨⟨w, hw1, hw2⟩, ⟨d, hd1, hd2⟩⟩, ⟨p, hp1, hp2⟩⟩

/-- Appending a context that coincides with no element of a unique list keeps
the list unique. -/
theorem uniqueCtxs_append_single (l : List (Option Ctx)) (c : Option Ctx)
    (hu : uniqueCtxs l = true) (hall : ∀ x ∈ l, sameCtx x c = false) :
    uniqueCtxs (l ++ [c]) = true := by
  induction l with
  | nil => simp [uniqueCtxs]
  | cons a t ih =>
    simp only [uniqueCtxs, Bool.and_eq_true] at hu
    simp only [List.cons_append, uniqueCtxs, List.append_eq, Bool.and_eq_true,
      List.all_append, List.all_cons, List.all_nil, Bool.and_true]
    refine ⟨⟨hu.1, ?_⟩, ih hu.2 (fun x hx => hall x (List.mem_cons_of_mem a hx))⟩
    rw [hall a (List.mem_cons_self a t)]
    rfl

/-- Every sublist of a unique context list is unique. -/
theorem uniqueCtxs_sublist (l1 l2 : List (Option Ctx))
    (h : List.Sublist l1 l2) (hu : uniqueCtxs l2 = true) :
    uniqueCtxs l1 = true := by
  induction h with
  | slnil => rfl
  | cons c hsub ih =>
    simp only [uniqueCtxs, Bool.and_eq_true] at hu
    exact ih hu.2
  | cons₂ c hsub ih =>
    simp only [uniqueCtxs, Bool.and_eq_true, List.all_eq_true] at hu ⊢
    exact ⟨fun x hx => hu.1 x (hsub.subset hx), ih hu.2⟩

/-- A content-only update leaves every entry's context in place. -/
theorem updateFirst_contexts (id : Nat) (x : String) (now : Nat) :
    ∀ (l : List Entry) (e2 : Entry) (l2 : List Entry),
      updateFirst id (contentOnly x) now l = some (e2, l2) →
      l2.map (fun e => e.context) = l.map (fun e => e.context) := by
  intro l
  induction l with
  | nil => intro e2 l2 h; simp [updateFirst] at h
  | cons a t ih =>
    intro e2 l2 h
    cases ha : (a.id == id) with
    | true =>
      simp only [updateFirst, ha, if_true, Option.some.injEq,
        Prod.mk.injEq] at h
      rw [← h.2]
      rfl
    | false =>
      simp only [updateFirst, ha, Bool.false_eq_true, if_false] at h
      cases hrest : updateFirst id (contentOnly x) now t with
      | none => rw [hrest] at h; simp at h
      | some pr =>
        rw [hrest] at h
        cases pr with
        | mk e3 l3 =>
          simp only [Option.some.injEq, Prod.mk.injEq] at h
          rw [← h.2]
          simp only [List.map_cons]
          rw [ih e3 l3 hrest]

/-- On a context-unique list, `find?` returns precisely the member that
matches the triple. -/
theorem find_unique_match (w d p : Int) (l : List Entry)
    (hu : uniqueCtxs (l.map (fun e => e.context)) = true)
    (e : Entry) (he : e ∈ l) (hm : matchesContext w d p e = true) :
    l.find? (matchesContext w d p) = some e := by
  induction l with
  | nil => cases he
  | cons a t ih =>
    simp only [List.map_cons, uniqueCtxs, Bool.and_eq_true,
      List.all_map, List.all_eq_true] at hu
    cases hma : matchesContext w d p a with
    | true =>
      rw [List.find?_cons_of_pos _ hma]
      rcases List.mem_cons.1 he with he1 | he2
      · rw [he1]
      · exfalso
        have hs : sameCtx a.context e.context = true := by
          rw [sameCtx_iff_matches]
          exact ⟨w, d, p, by rw [← matchesContext_eq_sameCtx]; exact hma,
            by rw [← matchesContext_eq_sameCtx]; exact hm⟩
        have hne := hu.1 e.context (List.mem_map_of_mem _ he2)
        rw [hs] at hne
        simp at hne
    | false =>
      rw [List.find?_cons_of_neg _ (by simp [hma])]
      rcases List.mem_cons.1 he with he1 | he2
      · subst he1
        rw [hm] at hma
        cases hma
      · exact ih hu.2 he2

/-- C6, counterexample: the Entry Store itself never enforces the uniqueness
invariant — `saveEntry` appends unconditionally, so two `saveEntry` calls
with distinct entries carrying the context `(1, 1, 0)` reach a state whose
collection holds two entries for that triple. -/
theorem c6_counterexample_duplicate_context :
    ((getAllEntries (saveEntry dupEntryB (saveEntry dupEntryA
        emptyStore))).filter (matchesContext 1 1 0)).length = 2
    ∧ uniqueByContext (getAllEntries (saveEntry dupEntryB (saveEntry dupEntryA
        emptyStore))) = false := by
  decide

/-- C6, amended: the Entry Store does not itself enforce the uniqueness
invariant (an unguarded `saveEntry`, an update that rewrites `context`, or a
migration merging onto an existing context can all duplicate a triple); the
invariant is preserved under the caller's upsert discipline — saving only
entries whose context `getEntryByContext` does not already resolve,
updating content only, and removing freely — and under it `findByContext`
returns precisely the unique entry carrying the triple, or null. -/
theorem c6_uniqueness_under_upsert (s : Store) :
    (∀ e : Entry, uniqueByContext (getAllEntries s) = true →
      (∀ w d p : Int, matchesContext w d p e = true →
        getEntryByContext w d p s = none) →
      uniqueByContext (getAllEntries (saveEntry e s)) = true)
    ∧ (∀ (id : Nat) (x : String) (now : Nat),
        uniqueByContext (getAllEntries s) = true →
        uniqueByContext
          (getAllEntries (updateEntry id (contentOnly x) now s).2) = true)
    ∧ (∀ id : Nat, uniqueByContext (getAllEntries s) = true →
        uniqueByContext (getAllEntries (deleteEntry id s).2) = true)
    ∧ (∀ (w d p : Int) (e : Entry),
        uniqueByContext (getAllEntries s) = true →
        e ∈ getAllEntries s → matchesContext w d p e = true →
        getEntryByContext w d p s = some e) := by
  refine ⟨?_, ?_, ?_, ?_⟩
  · intro e hu hg
    have hall : ∀ a ∈ getAllEntries s, sameCtx a.context e.context = false := by
      intro a ha
      cases hs : sameCtx a.context e.context with
      | false => rfl
      | true =>
        exfalso
        obtain ⟨w, d, p, hsa, hse⟩ := (sameCtx_iff_matches _ _).1 hs
        have hme : matchesContext w d p e = true := by
          rw [matchesContext_eq_sameCtx]; exact hse
        have hma : matchesContext w d p a = true := by
          rw [matchesContext_eq_sameCtx]; exact hsa
        have hnone := hg w d p hme
        rw [getEntryByContext, List.find?_eq_none] at hnone
        exact hnone a ha hma
    have : getAllEntries (saveEntry e s) = getAllEntries s ++ [e] := rfl
    rw [this, uniqueByContext, List.map_append, List.map_cons, List.map_nil]
    apply uniqueCtxs_append_single _ _ hu
    intro x hx
    rw [List.mem_map] at hx
    obtain ⟨a, ha, hax⟩ := hx
    rw [← hax]
    exact hall a ha
  · intro id x now hu
    unfold updateEntry
    cases hfind : updateFirst id (contentOnly x) now (getAllEntries s) with
    | none => exact hu
    | some pr =>
      cases pr with
      | mk e3 l3 =>
        have hctx := updateFirst_contexts id x now (getAllEntries s) e3 l3 hfind
        have : getAllEntries
            { s with entries := StoredDoc.valid l3 } = l3 := rfl
        rw [uniqueByContext] at hu ⊢
        rw [this, hctx]
        exact hu
  · intro id hu
    unfold deleteEntry
    by_cases hlen : ((getAllEntries s).filter
        (fun e => !(e.id == id))).length == (getAllEntries s).length
    · simp only [hlen, if_true]
      exact hu
    · simp only [hlen, Bool.false_eq_true, if_false]
      rw [uniqueByContext]
      apply uniqueCtxs_sublist _ _ _ hu
      exact (List.filter_sublist _).map _
  · intro w d p e hu he hm
    rw [getEntryByContext]
    exact find_unique_match w d p (getAllEntries s) hu e he hm

/-- Witness for the amended C6: on a unique two-entry store, the context
lookup returns exactly the reflection entry carrying `(1, 1, 0)`. -/
theorem c6_uniqueness_under_upsert_witness :
    getEntryByContext 1 1 0 storeTwoEntries = some dupEntryA :=
  (c6_uniqueness_under_upsert storeTwoEntries).2.2.2 1 1 0 dupEntryA
    (by decide) (by decide) (by decide)

/-- C10: on a parseable legacy record containing a `null` value alongside a
valid reflection pair, `migrateFromLegacy` aborts the whole migration: it
returns `{migrated: false, count: 0, error}`, migrates none of the valid
sibling entries, and leaves the entry collection and the legacy key exactly
unchanged. -/
theorem c10_null_value_aborts_whole_migration :
    migrateFromLegacy 7 100 storeWithNullLegacy =
      ({ migrated := false, count := 0,
         error := some "Cannot read properties of null" },
       storeWithNullLegacy) := by
  decide

end Beacon
